import Mathlib

/-
Shallow embedding of the semantic-network-analyzer core:
  backend/core/text_processor.py      (TextProcessor)
  backend/core/network_builder.py     (NetworkBuilder)
  backend/core/multi_group_analyzer.py (MultiGroupAnalyzer)

Words are modelled as `List Char` (Python `str` tokens), counts and edge
weights as `Nat`, float-valued metrics as `ℚ`.  Calls into third-party
graph libraries (networkx / python-louvain / sklearn) are modelled as
oracle parameters: the repository's own code only post-processes their
results, and that post-processing is what is embedded here.
-/

/-- Coerce a Lean string literal to the word representation. -/
def chars (s : String) : List Char := s.data

/-- Lexicographic (code-point) order on words, mirroring Python string `<`
as used by `sorted` in `build_network`. -/
def ltW : List Char → List Char → Bool
  | [], [] => false
  | [], _ :: _ => true
  | _ :: _, [] => false
  | a :: as, b :: bs => if a < b then true else if b < a then false else ltW as bs

/-- Non-strict companion of `ltW`. -/
def leW (a b : List Char) : Bool := ltW a b || a == b

/-- Stable insertion step for `pySort`. -/
def insertSorted {α : Type} (le : α → α → Bool) (x : α) : List α → List α
  | [] => [x]
  | y :: ys => if le x y then x :: y :: ys else y :: insertSorted le x ys

/-- Model of Python `sorted` / `list.sort`: a stable sort by the boolean
comparator `le` (structural, so that concrete graphs evaluate). -/
def pySort {α : Type} (le : α → α → Bool) : List α → List α
  | [] => []
  | x :: xs => insertSorted le x (pySort le xs)

/-- Python `sorted` on a list of strings. -/
def sortW (l : List (List Char)) : List (List Char) := pySort leW l

/-- `itertools.combinations(l, 2)`, as used on the sorted per-document word
set in `build_network`. -/
def pairsOf : List (List Char) → List (List Char × List Char)
  | [] => []
  | x :: xs => (xs.map (fun y => (x, y))) ++ pairsOf xs

/-- Whitespace for Python `str.split()` / `str.strip()`. -/
def isPySpace (c : Char) : Bool :=
  c == ' ' || c == '\t' || c == '\n' || c == '\x0d' || c == '\x0b' || c == '\x0c'

/-- Python `text.split()`: split on whitespace runs, discarding empties. -/
def pySplit (s : List Char) : List (List Char) :=
  (s.splitOnP isPySpace).filter (fun t => !t.isEmpty)

/-- Python `str.strip()`. -/
def pyStrip (s : List Char) : List Char :=
  ((s.dropWhile isPySpace).reverse.dropWhile isPySpace).reverse

/-- Character class `\w` of `re.sub(r'[^\w\s]', '', word)` (ASCII fragment). -/
def isWordChar (c : Char) : Bool := c.isAlphanum || c == '_'

/-- `TextProcessor.clean_word`: lowercase, strip, drop non-word non-space
characters. -/
def clean_word (word : List Char) : List Char :=
  let word := word.map Char.toLower
  let word := pyStrip word
  word.filter (fun c => isWordChar c || isPySpace c)

/-- `TextProcessor` configuration state.  Python sets/dicts are embedded as
lists; membership is the only operation the source performs on them. -/
structure TextProcessor where
  stopwords : List (List Char)
  delete_words : List (List Char)
  word_mappings : List (List Char × List Char)
  min_word_length : Nat
  unify_plurals : Bool
deriving DecidableEq

/-- `TextProcessor.DEFAULT_STOPWORDS`. -/
def DEFAULT_STOPWORDS : List (List Char) :=
  ([r"a", r"about", r"above", r"after", r"again", r"against", r"all", r"am", r"an", r"and",
    r"any", r"are", r"as", r"at", r"be", r"because", r"been", r"before", r"being", r"below",
    r"between", r"both", r"but", r"by", r"can", r"cannot", r"could", r"did", r"do", r"does",
    r"doing", r"down", r"during", r"each", r"few", r"for", r"from", r"further", r"had",
    r"has", r"have", r"having", r"he", r"her", r"here", r"hers", r"herself", r"him",
    r"himself", r"his", r"how", r"i", r"if", r"in", r"into", r"is", r"it", r"its", r"itself",
    r"just", r"me", r"might", r"more", r"most", r"must", r"my", r"myself", r"no", r"nor",
    r"not", r"now", r"of", r"off", r"on", r"once", r"only", r"or", r"other", r"our", r"ours",
    r"ourselves", r"out", r"over", r"own", r"same", r"she", r"should", r"so", r"some",
    r"such", r"than", r"that", r"the", r"their", r"theirs", r"them", r"themselves", r"then",
    r"there", r"these", r"they", r"this", r"those", r"through", r"to", r"too", r"under",
    r"until", r"up", r"very", r"was", r"we", r"were", r"what", r"when", r"where", r"which",
    r"while", r"who", r"whom", r"why", r"will", r"with", r"would", r"you", r"your", r"yours",
    r"yourself", r"yourselves", r"also", r"etc"] : List String).map chars

/-- `TextProcessor.__init__`: the `x or default` idiom means a passed-in
empty collection falls back to the default (so an empty stopword set is
replaced by `DEFAULT_STOPWORDS`). -/
def TextProcessor.init (stopwords : Option (List (List Char)))
    (delete_words : Option (List (List Char)))
    (word_mappings : Option (List (List Char × List Char)))
    (min_word_length : Nat) (unify_plurals : Bool) : TextProcessor :=
  { stopwords := match stopwords with
      | some l => if l.isEmpty then DEFAULT_STOPWORDS else l
      | none => DEFAULT_STOPWORDS
    delete_words := match delete_words with
      | some l => if l.isEmpty then [] else l
      | none => []
    word_mappings := match word_mappings with
      | some l => if l.isEmpty then [] else l
      | none => []
    min_word_length := min_word_length
    unify_plurals := unify_plurals }

/-- `TextProcessor.get_singular`: ordered suffix rules for common English
plurals. -/
def get_singular (tp : TextProcessor) (word : List Char) : List Char :=
  if !tp.unify_plurals then word
  else if (['i', 'e', 's'].isSuffixOf word) && decide (4 < word.length) then
    word.take (word.length - 3) ++ ['y']
  else if (['e', 's'].isSuffixOf word) && decide (3 < word.length) then
    let base := word.take (word.length - 2)
    if (['s'].isSuffixOf base) || (['x'].isSuffixOf base) || (['z'].isSuffixOf base)
        || (['c', 'h'].isSuffixOf base) || (['s', 'h'].isSuffixOf base) then base
    else word.take (word.length - 1)
  else if (['s'].isSuffixOf word) && decide (2 < word.length)
      && !(['s', 's'].isSuffixOf word) then
    word.take (word.length - 1)
  else word

/-- `TextProcessor.process_word`: clean, length check, pre-transform
stopword/delete check, explicit mapping, plural unification, post-transform
delete check. -/
def process_word (tp : TextProcessor) (word : List Char) : Option (List Char) :=
  let word := clean_word word
  if word.length < tp.min_word_length then none
  else if tp.stopwords.contains word || tp.delete_words.contains word then none
  else
    let word := match tp.word_mappings.lookup word with
      | some target => target
      | none => word
    let word :=
      if tp.unify_plurals then
        let singular := get_singular tp word
        if singular != word && decide (tp.min_word_length ≤ singular.length) then singular
        else word
      else word
    if tp.delete_words.contains word then none else some word

/-- Python value passed to `process_text`: either a `str` or any non-string
object (whose only observable property there is truthiness). -/
inductive PyObj where
  | str (s : List Char)
  | nonstr (truthy : Bool)
deriving DecidableEq

/-- Python truthiness of a `process_text` argument. -/
def pyTruthy : PyObj → Bool
  | .str s => !s.isEmpty
  | .nonstr t => t

/-- `isinstance(text, str)`. -/
def pyIsStr : PyObj → Bool
  | .str _ => true
  | .nonstr _ => false

/-- `TextProcessor.process_text`: `if not text or not isinstance(text, str):
return []`, then split on whitespace and keep truthy `process_word` results. -/
def process_text (tp : TextProcessor) (text : PyObj) : List (List Char) :=
  if !pyTruthy text || !pyIsStr text then []
  else match text with
    | .str s => (pySplit s).filterMap (fun token =>
        match process_word tp token with
        | some processed => if processed.isEmpty then none else some processed
        | none => none)
    | .nonstr _ => []

/-- Result record of `TextProcessor.process_texts`. -/
structure ProcessTextsResult where
  word_counts : List (List Char × Nat)
  processed_texts : List (List (List Char))
  total_words : Nat
  unique_words : Nat

/-- `TextProcessor.process_texts`: per-text token lists plus a `Counter`
over the concatenation. -/
def process_texts (tp : TextProcessor) (texts : List PyObj) : ProcessTextsResult :=
  let processed_texts := texts.map (process_text tp)
  let all_words := processed_texts.flatten
  let word_counts := all_words.dedup.map (fun w => (w, all_words.count w))
  { word_counts := word_counts
    processed_texts := processed_texts
    total_words := all_words.length
    unique_words := word_counts.length }

/-- Co-occurrence graph: nodes carry their frequency count, edges carry
their co-occurrence weight, keyed by the canonical sorted word pair. -/
structure Graph where
  nodes : List (List Char × Nat)
  edges : List ((List Char × List Char) × Nat)
deriving DecidableEq

/-- `NetworkBuilder` mutable state.  `last_partition = none` models the
`last_partition` attribute not having been assigned yet (`getattr` default). -/
structure NetworkBuilder where
  processor : TextProcessor
  graph : Option Graph := none
  word_counts : List (List Char × Nat) := []
  edges : List ((List Char × List Char) × Nat) := []
  last_partition : Option (List (List Char × Nat)) := none

/-- Frequency-filtered word counts of `build_network` (its `word_counts`
local, a filter of the `process_texts` counter). -/
def buildWordCounts (tp : TextProcessor) (texts : List PyObj)
    (min_frequency : Nat) : List (List Char × Nat) :=
  (process_texts tp texts).word_counts.filter (fun wc => min_frequency ≤ wc.2)

/-- The `valid_words` local of `build_network`. -/
def buildValidWords (tp : TextProcessor) (texts : List PyObj)
    (min_frequency : Nat) : List (List Char) :=
  (buildWordCounts tp texts min_frequency).map Prod.fst

/-- All per-document co-occurrence pairs of `build_network`: for each
document, `combinations(sorted(set of valid words in it), 2)`, concatenated
(the multiset underlying the `edge_weights` accumulation). -/
def buildAllPairs (tp : TextProcessor) (texts : List PyObj)
    (min_frequency : Nat) : List (List Char × List Char) :=
  (((process_texts tp texts).processed_texts).map (fun words =>
    pairsOf (sortW ((words.filter
      (fun w => (buildValidWords tp texts min_frequency).contains w)).dedup)))).flatten

/-- The `edges` dict of `build_network`: weight-filtered pair counts. -/
def buildEdges (tp : TextProcessor) (texts : List PyObj)
    (min_frequency min_edge_weight : Nat) : List ((List Char × List Char) × Nat) :=
  ((buildAllPairs tp texts min_frequency).dedup.map
    (fun p => (p, (buildAllPairs tp texts min_frequency).count p))).filter
    (fun pw => min_edge_weight ≤ pw.2)

/-- The graph edges of `build_network`: the `edges` entries whose endpoints
are both valid words (the membership re-check of the add-edge loop). -/
def buildGraphEdges (tp : TextProcessor) (texts : List PyObj)
    (min_frequency min_edge_weight : Nat) : List ((List Char × List Char) × Nat) :=
  (buildEdges tp texts min_frequency min_edge_weight).filter
    (fun pw => (buildValidWords tp texts min_frequency).contains pw.1.1
      && (buildValidWords tp texts min_frequency).contains pw.1.2)

/-- `NetworkBuilder.build_network`: frequency-filter the word counts, count
per-document co-occurrences over the sorted valid-word set, weight-filter
the edges, and build the graph (its locals are the `build*` definitions
above). -/
def build_network (nb : NetworkBuilder) (texts : List PyObj)
    (min_frequency : Nat) (min_edge_weight : Nat) : NetworkBuilder :=
  { nb with
    graph := some
      { nodes := buildWordCounts nb.processor texts min_frequency
        edges := buildGraphEdges nb.processor texts min_frequency min_edge_weight }
    word_counts := buildWordCounts nb.processor texts min_frequency
    edges := buildEdges nb.processor texts min_frequency min_edge_weight }

/-- Unweighted degree of a node (model of `networkx.Graph.degree`): number
of incident edges. -/
def Graph.degreeOf (g : Graph) (n : List Char) : Nat :=
  (g.edges.filter (fun pw => pw.1.1 == n || pw.1.2 == n)).length

/-- Weighted degree / strength of a node (model of
`networkx.Graph.degree(weight='weight')`): sum of incident edge weights. -/
def Graph.strengthOf (g : Graph) (n : List Char) : Nat :=
  ((g.edges.filter (fun pw => pw.1.1 == n || pw.1.2 == n)).map (fun pw => pw.2)).sum

/-- Python `max(values)` over a metric-value list (guarded nonempty at all
call sites). -/
def pymaxQ : List ℚ → ℚ
  | [] => 0
  | x :: xs => xs.foldl max x

/-- Python `max(values)` over a count list. -/
def pymaxN : List Nat → Nat
  | [] => 0
  | x :: xs => xs.foldl max x

/-- Python banker's rounding (`round`) to an integer. -/
def roundHalfEven (q : ℚ) : ℤ :=
  let n := ⌊q⌋
  let f := q - (n : ℚ)
  if f < 1 / 2 then n
  else if 1 / 2 < f then n + 1
  else if n % 2 = 0 then n else n + 1

/-- Python `round(q, ndigits)`. -/
def pyRound (ndigits : Nat) (q : ℚ) : ℚ :=
  ((roundHalfEven (q * (10 : ℚ) ^ ndigits) : ℚ)) / (10 : ℚ) ^ ndigits

/-- Eigenvector fallback of `calculate_centrality_metrics`: the caught
`PowerIterationFailedConvergence` yields all-zero values. -/
def eigenvectorOrZero (r : Except Unit (List Char → ℚ)) : List Char → ℚ :=
  match r with
  | .ok f => f
  | .error _ => fun _ => 0

/-- Per-node centrality record returned by `calculate_centrality_metrics`. -/
structure Centrality where
  degree : ℚ
  strength : ℚ
  betweenness : ℚ
  closeness : ℚ
  eigenvector : ℚ
deriving DecidableEq

/-- `NetworkBuilder.calculate_centrality_metrics`.  Python's
`if not self.graph` is true both when the graph is `None` and when the
built graph has zero nodes (an empty `networkx` graph is falsy), so both
cases raise.  The networkx betweenness/closeness/eigenvector computations
are oracle parameters; eigenvector non-convergence
(`PowerIterationFailedConvergence`) is the oracle's error case and falls
back to all-zero values.  Degree and strength are read off the graph;
`max_degree` and `max_strength` are computed but never used, exactly as in
the source. -/
def calculate_centrality_metrics (nb : NetworkBuilder)
    (betweennessFn : Graph → List Char → ℚ)
    (closenessFn : Graph → List Char → ℚ)
    (eigenvectorFn : Graph → Except Unit (List Char → ℚ)) :
    Except (List Char) (List (List Char × Centrality)) :=
  match nb.graph with
  | none => .error (chars (r"Network not built. Call build_network first."))
  | some g =>
    if g.nodes.isEmpty then .error (chars (r"Network not built. Call build_network first."))
    else
      let ns := g.nodes.map Prod.fst
      let degree : List Char → ℚ := fun n => (g.degreeOf n : ℚ)
      let strength : List Char → ℚ := fun n => (g.strengthOf n : ℚ)
      let betweenness := betweennessFn g
      let closeness := closenessFn g
      let eigenvector : List Char → ℚ := eigenvectorOrZero (eigenvectorFn g)
      let _max_degree := if ns.isEmpty then (1 : ℚ) else pymaxQ (ns.map degree)
      let _max_strength := if ns.isEmpty then (1 : ℚ) else pymaxQ (ns.map strength)
      let max_betweenness := if ns.isEmpty then (1 : ℚ) else pymaxQ (ns.map betweenness)
      let max_eigenvector := if ns.isEmpty then (1 : ℚ) else pymaxQ (ns.map eigenvector)
      .ok (ns.map (fun n =>
        (n, { degree := degree n
              strength := strength n
              betweenness := if 0 < max_betweenness then betweenness n / max_betweenness else 0
              closeness := closeness n
              eigenvector := if 0 < max_eigenvector then eigenvector n / max_eigenvector
                else 0 })))

/-- `NetworkBuilder.detect_clusters`.  The louvain/spectral library calls
are oracle parameters (error = the Python exception caught by the
`try/except`).  Note which branches assign `self.last_partition`: the
empty-graph and zero-edge early returns do not. -/
def detect_clusters (nb : NetworkBuilder)
    (louvainFn : Graph → Except Unit (List (List Char × Nat)))
    (spectralFn : Graph → Except Unit (List (List Char × Nat)))
    (method : List Char) :
    NetworkBuilder × List (List Char × Nat) :=
  match nb.graph with
  | none => (nb, [])
  | some g =>
    if g.nodes.isEmpty then (nb, [])
    else if g.edges.isEmpty then
      (nb, g.nodes.enum.map (fun p => (p.2.1, p.1)))
    else if method == chars (r"louvain") then
      match louvainFn g with
      | .ok partition => ({ nb with last_partition := some partition }, partition)
      | .error _ =>
        let partition := g.nodes.map (fun p => (p.1, 0))
        ({ nb with last_partition := some partition }, partition)
    else if method == chars (r"spectral") then
      match spectralFn g with
      | .ok partition => ({ nb with last_partition := some partition }, partition)
      | .error _ =>
        let partition := g.nodes.map (fun p => (p.1, 0))
        ({ nb with last_partition := some partition }, partition)
    else
      let partition := g.nodes.map (fun p => (p.1, 0))
      ({ nb with last_partition := some partition }, partition)

/-- Modularity entry of `NetworkBuilder.get_network_stats`: `none` models
the `'modularity'` key being absent from the returned stats dict (which
happens when the graph is falsy — `None` or empty — or when no nonempty
partition is stored).  The `networkx` modularity computation over the
stored partition is an oracle parameter; its error case is the caught
exception that degrades to `0.0`. -/
def get_network_stats_modularity (nb : NetworkBuilder)
    (modularityFn : Graph → List (List Char × Nat) → Except Unit ℚ) : Option ℚ :=
  match nb.graph with
  | none => none
  | some g =>
    if g.nodes.isEmpty then none
    else match nb.last_partition with
      | none => none
      | some partition =>
        if partition.isEmpty then none
        else match modularityFn g partition with
          | .ok m => some (pyRound 6 m)
          | .error _ => some 0

/-- `MultiGroupAnalyzer` state: one shared processor and one
`NetworkBuilder` per group.  Group names/keys are omitted: they only label
output dictionary keys and never influence the computed data. -/
structure MultiGroupAnalyzer where
  num_groups : Nat
  processor : TextProcessor
  builders : List NetworkBuilder

/-- `MultiGroupAnalyzer.__init__` for a given group count. -/
def MultiGroupAnalyzer.init (group_count : Nat) (tp : TextProcessor) : MultiGroupAnalyzer :=
  { num_groups := group_count
    processor := tp
    builders := List.replicate group_count { processor := tp } }

/-- One row of `analysis_data` in `MultiGroupAnalyzer.analyze`.  Per-group
centrality/advanced metric attachments are value lookups that never affect
row membership or the edge list and are projected away here; the fields
that drive inclusion, ordering and cross-group derivation are kept. -/
structure AnalysisRow where
  word : List Char
  counts : List Nat
  norms : List ℚ
  clusters : List Int
  avg_normalized : ℚ
  in_all : Bool
  group_count : Nat
  difference : Option ℚ

/-- Effective per-group thresholds: `per_group_thresholds if
per_group_thresholds and len(per_group_thresholds) == self.num_groups else
[min_score_threshold] * self.num_groups`. -/
def effectiveThresholds (num_groups : Nat) (min_score_threshold : ℚ) :
    Option (List ℚ) → List ℚ
  | some l =>
    if !l.isEmpty && l.length == num_groups then l
    else List.replicate num_groups min_score_threshold
  | none => List.replicate num_groups min_score_threshold

/-- Per-group maximum node count used for score normalization
(`max(builder.word_counts.values()) if builder.word_counts else 1`). -/
def NetworkBuilder.maxCount (nb : NetworkBuilder) : Nat :=
  if nb.word_counts.isEmpty then 1 else pymaxN (nb.word_counts.map Prod.snd)

/-- Per-group normalized score of a word:
`round((count / max_counts[i]) * 100, 2) if count > 0 else 0`. -/
def NetworkBuilder.normScore (nb : NetworkBuilder) (word : List Char) : ℚ :=
  let count := (nb.word_counts.lookup word).getD 0
  if 0 < count then pyRound 2 (((count : ℚ) / (nb.maxCount : ℚ)) * 100) else 0

/-- Step 1 of `analyze`: build every group's network
(`min_edge_weight` is left at its default 1). -/
def builtBuilders (mga : MultiGroupAnalyzer) (texts_list : List (List PyObj))
    (min_frequency : Nat) : List NetworkBuilder :=
  (mga.builders.zip texts_list).map (fun p => build_network p.1 p.2 min_frequency 1)

/-- Union of all groups' node words (`all_words` in `analyze`). -/
def unionWords (builders : List NetworkBuilder) : List (List Char) :=
  ((builders.map (fun b => b.word_counts.map Prod.fst)).flatten).dedup

/-- Row construction for one word in `analyze`: `None` models the
`continue` taken when every group's normalized score is below its
threshold. -/
def mkRow (builders : List NetworkBuilder) (all_clusters : List (List (List Char × Nat)))
    (thresholds : List ℚ) (num_groups : Nat) (word : List Char) : Option AnalysisRow :=
  let counts := builders.map (fun b => (b.word_counts.lookup word).getD 0)
  let norms := builders.map (fun b => b.normScore word)
  if (List.range num_groups).all
      (fun i => decide (norms.getD i 0 < thresholds.getD i 0)) then none
  else
    some { word := word
           counts := counts
           norms := norms
           clusters := all_clusters.map (fun cl => ((cl.lookup word).map Int.ofNat).getD (-1))
           avg_normalized := pyRound 2 (norms.sum / (norms.length : ℚ))
           in_all := counts.all (fun c => decide (0 < c))
           group_count := (counts.filter (fun c => decide (0 < c))).length
           difference := if num_groups == 2 then
               some (pyRound 2 ((norms.getD 0 0) - (norms.getD 1 0))) else none }

/-- Result of `analyze`.  The `stats` dictionary, group names and group
keys are derived output labels not touched by any claim and are omitted. -/
structure AnalyzeResult where
  analysis_data : List AnalysisRow
  edges : List ((List Char × List Char) × Nat)
  num_groups : Nat

/-- `MultiGroupAnalyzer.analyze`: group-count check, effective thresholds,
per-group build / centrality / clustering, word union, threshold-filtered
row construction, sort by average normalized score (descending, stable),
and cross-group edge union restricted to included words.  The centrality
call is the only step that can raise past the length check; its error
propagates out of `analyze`. -/
def analyze (mga : MultiGroupAnalyzer)
    (betweennessFn : Graph → List Char → ℚ)
    (closenessFn : Graph → List Char → ℚ)
    (eigenvectorFn : Graph → Except Unit (List Char → ℚ))
    (louvainFn spectralFn : Graph → Except Unit (List (List Char × Nat)))
    (texts_list : List (List PyObj)) (min_frequency : Nat)
    (min_score_threshold : ℚ) (per_group_thresholds : Option (List ℚ))
    (cluster_method : List Char) :
    Except (List Char) AnalyzeResult :=
  if texts_list.length != mga.num_groups then
    .error (chars (r"group count mismatch"))
  else
    let thresholds := effectiveThresholds mga.num_groups min_score_threshold
        per_group_thresholds
    let builders1 := builtBuilders mga texts_list min_frequency
    match builders1.mapM (fun b =>
        calculate_centrality_metrics b betweennessFn closenessFn eigenvectorFn) with
    | .error e => .error e
    | .ok _all_metrics =>
      let cluster_results := builders1.map
          (fun b => detect_clusters b louvainFn spectralFn cluster_method)
      let builders2 := cluster_results.map Prod.fst
      let all_clusters := cluster_results.map Prod.snd
      let all_words := unionWords builders2
      let rows := all_words.filterMap (mkRow builders2 all_clusters thresholds mga.num_groups)
      let analysis_data := pySort
          (fun a b => decide (b.avg_normalized ≤ a.avg_normalized)) rows
      let all_edge_keys := ((builders2.map (fun b => b.edges.map Prod.fst)).flatten).dedup
      let combined := all_edge_keys.map
          (fun p => (p, (builders2.map (fun b => (b.edges.lookup p).getD 0)).sum))
      let valid_words := analysis_data.map (fun r => r.word)
      let combined_edges := combined.filter
          (fun pw => valid_words.contains pw.1.1 && valid_words.contains pw.1.2)
      .ok { analysis_data := analysis_data
            edges := combined_edges
            num_groups := mga.num_groups }

/-- Boolean success test on `Except`. -/
def isOkE {ε α : Type} : Except ε α → Bool
  | .ok _ => true
  | .error _ => false

/-- Value extraction from a successful `Except`. -/
def getOkE {ε α : Type} (d : α) : Except ε α → α
  | .ok a => a
  | .error _ => d

/-- Concrete processor with a tiny custom stopword set (a nonempty set, as
the constructor's `or`-defaulting requires of any non-default set). -/
def tpPlain : TextProcessor :=
  { stopwords := [chars (r"zz")], delete_words := [], word_mappings := []
    min_word_length := 2, unify_plurals := true }

/-- Processor whose stopword set contains the singular form of a plural. -/
def tpStop : TextProcessor :=
  { stopwords := [chars (r"the")], delete_words := [], word_mappings := []
    min_word_length := 2, unify_plurals := true }

/-- Processor whose mapping target is shorter than the minimum length. -/
def tpShort : TextProcessor :=
  { stopwords := [chars (r"zz")], delete_words := []
    word_mappings := [(chars (r"ok"), chars (r"a"))]
    min_word_length := 2, unify_plurals := true }

/-- Processor built through `TextProcessor.init` (default stopwords) with
the mapping of scenario 4. -/
def tpMap : TextProcessor :=
  TextProcessor.init none none (some [(chars (r"color"), chars (r"colour"))]) 2 true

/-- Fresh builder over the plain processor. -/
def nb0 : NetworkBuilder := { processor := tpPlain }

/-- Builder after building from two documents; its graph is the path
aa — bb — cc, so node bb has degree 2. -/
def nbC : NetworkBuilder :=
  build_network nb0 [PyObj.str (chars (r"aa bb")), PyObj.str (chars (r"bb cc"))] 1 1

/-- The built graph of `nbC`. -/
def gC : Graph := nbC.graph.getD { nodes := [], edges := [] }

/-- Single-node builder: one node `aa`, zero edges. -/
def nbS : NetworkBuilder := build_network nb0 [PyObj.str (chars (r"aa"))] 1 1

/-- Louvain oracle used by the C8 witness. -/
def lfW : Graph → Except Unit (List (List Char × Nat)) :=
  fun _ => Except.ok [(chars (r"aa"), 0), (chars (r"bb"), 0), (chars (r"cc"), 0)]

/-- Builder with a stored partition, for the C8 witness. -/
def nbP : NetworkBuilder := { nbC with last_partition := some [(chars (r"aa"), 0)] }

/-- Two-group analyzer over the plain processor. -/
def mgaW : MultiGroupAnalyzer := MultiGroupAnalyzer.init 2 tpPlain

/-- Concrete group documents for the analyzer witnesses. -/
def textsW : List (List PyObj) :=
  [[PyObj.str (chars (r"aa bb"))], [PyObj.str (chars (r"bb cc"))]]

/-- Zero-valued centrality oracle. -/
def zeroFn : Graph → List Char → ℚ := fun _ _ => 0

/-- Non-converging eigenvector oracle. -/
def errEV : Graph → Except Unit (List Char → ℚ) := fun _ => Except.error ()

/-- Failing clustering oracle (exception caught by the fallback branch). -/
def errPart : Graph → Except Unit (List (List Char × Nat)) := fun _ => Except.error ()

/-- A complete concrete `analyze` run. -/
def anW : Except (List Char) AnalyzeResult :=
  analyze mgaW zeroFn zeroFn errEV errPart errPart textsW 1 0 none (chars (r"louvain"))

/-- The successful result of `anW`. -/
def resW : AnalyzeResult :=
  getOkE { analysis_data := [], edges := [], num_groups := 0 } anW

theorem ltW_irrefl (a : List Char) : ltW a a = false := by
  induction a with
  | nil => rfl
  | cons x xs ih => simp [ltW, ih]

theorem ltW_trans {a b c : List Char} (h₁ : ltW a b = true) (h₂ : ltW b c = true) :
    ltW a c = true := by
  induction a generalizing b c with
  | nil =>
    cases b with
    | nil => exact h₂
    | cons y ys =>
      cases c with
      | nil => simp [ltW] at h₂
      | cons z zs => rfl
  | cons x xs ih =>
    cases b with
    | nil => simp [ltW] at h₁
    | cons y ys =>
      cases c with
      | nil => simp [ltW] at h₂
      | cons z zs =>
        simp only [ltW] at h₁ h₂ ⊢
        rcases lt_trichotomy x y with hxy | rfl | hxy
        · rcases lt_trichotomy y z with hyz | rfl | hyz
          · simp [lt_trans hxy hyz]
          · simp [hxy]
          · rw [if_neg (asymm hyz), if_pos hyz] at h₂
            exact absurd h₂ Bool.false_ne_true
        · rw [if_neg (lt_irrefl x)] at h₁
          rw [if_neg (lt_irrefl x)] at h₁
          rcases lt_trichotomy x z with hxz | rfl | hxz
          · simp [hxz]
          · rw [if_neg (lt_irrefl x)] at h₂
            rw [if_neg (lt_irrefl x)] at h₂
            rw [if_neg (lt_irrefl x), if_neg (lt_irrefl x)]
            exact ih h₁ h₂
          · rw [if_neg (asymm hxz), if_pos hxz] at h₂
            exact absurd h₂ Bool.false_ne_true
        · rw [if_neg (asymm hxy), if_pos hxy] at h₁
          exact absurd h₁ Bool.false_ne_true

theorem ltW_trichotomy (a b : List Char) : ltW a b = true ∨ a = b ∨ ltW b a = true := by
  induction a generalizing b with
  | nil => cases b with
    | nil => right; left; rfl
    | cons y ys => left; rfl
  | cons x xs ih =>
    cases b with
    | nil => right; right; rfl
    | cons y ys =>
      rcases lt_trichotomy x y with h | h | h
      · left; simp [ltW, h]
      · subst h
        rcases ih ys with h' | h' | h'
        · left; simp [ltW, h']
        · right; left; rw [h']
        · right; right; simp [ltW, h']
      · right; right; simp [ltW, h]

theorem ne_of_ltW {a b : List Char} (h : ltW a b = true) : a ≠ b := by
  intro he; subst he; rw [ltW_irrefl] at h; exact Bool.false_ne_true h

theorem leW_trans (a b c : List Char) (h₁ : leW a b = true) (h₂ : leW b c = true) :
    leW a c = true := by
  simp only [leW, Bool.or_eq_true, beq_iff_eq] at h₁ h₂ ⊢
  rcases h₁ with h₁ | h₁
  · rcases h₂ with h₂ | h₂
    · exact Or.inl (ltW_trans h₁ h₂)
    · subst h₂; exact Or.inl h₁
  · subst h₁; exact h₂

theorem leW_total (a b : List Char) : (leW a b || leW b a) = true := by
  simp only [leW, Bool.or_eq_true, beq_iff_eq]
  rcases ltW_trichotomy a b with h | h | h
  · exact Or.inl (Or.inl h)
  · exact Or.inl (Or.inr h)
  · exact Or.inr (Or.inl h)

theorem ltW_of_leW_of_ne {a b : List Char} (h : leW a b = true) (hne : a ≠ b) :
    ltW a b = true := by
  simp only [leW, Bool.or_eq_true, beq_iff_eq] at h
  rcases h with h | h
  · exact h
  · exact absurd h hne

theorem insertSorted_perm {α : Type} (le : α → α → Bool) (x : α) (l : List α) :
    (insertSorted le x l).Perm (x :: l) := by
  induction l with
  | nil => exact List.Perm.refl _
  | cons y ys ih =>
    by_cases h : le x y = true
    · simp [insertSorted, h]
    · simp only [insertSorted, h, Bool.false_eq_true, if_false]
      exact ((ih.cons y).trans (List.Perm.swap x y ys))

theorem pySort_perm {α : Type} (le : α → α → Bool) (l : List α) :
    (pySort le l).Perm l := by
  induction l with
  | nil => exact List.Perm.refl _
  | cons x xs ih => exact (insertSorted_perm le x (pySort le xs)).trans (ih.cons x)

theorem pairwise_insertSorted {α : Type} (le : α → α → Bool)
    (htot : ∀ a b, (le a b || le b a) = true)
    (htr : ∀ a b c, le a b = true → le b c = true → le a c = true)
    (x : α) (l : List α) (h : l.Pairwise (fun a b => le a b = true)) :
    (insertSorted le x l).Pairwise (fun a b => le a b = true) := by
  induction l with
  | nil => simp [insertSorted]
  | cons y ys ih =>
    rcases List.pairwise_cons.mp h with ⟨hy, hys⟩
    by_cases hxy : le x y = true
    · simp only [insertSorted, hxy, if_true]
      refine List.pairwise_cons.mpr ⟨?_, h⟩
      intro b hb
      rcases List.mem_cons.mp hb with rfl | hb
      · exact hxy
      · exact htr x y b hxy (hy b hb)
    · simp only [insertSorted, hxy, Bool.false_eq_true, if_false]
      refine List.pairwise_cons.mpr ⟨?_, ih hys⟩
      intro b hb
      have hb' := (insertSorted_perm le x ys).mem_iff.mp hb
      rcases List.mem_cons.mp hb' with heq | hb'
      · subst heq
        have h2 := htot b y
        simp only [Bool.or_eq_true] at h2
        rcases h2 with h2 | h2
        · exact absurd h2 hxy
        · exact h2
      · exact hy b hb'

theorem pairwise_pySort {α : Type} (le : α → α → Bool)
    (htot : ∀ a b, (le a b || le b a) = true)
    (htr : ∀ a b c, le a b = true → le b c = true → le a c = true)
    (l : List α) : (pySort le l).Pairwise (fun a b => le a b = true) := by
  induction l with
  | nil => simp [pySort]
  | cons x xs ih => exact pairwise_insertSorted le htot htr x (pySort le xs) ih

theorem pairsOf_pairwise {R : List Char → List Char → Prop} :
    ∀ {l : List (List Char)}, l.Pairwise R → ∀ p ∈ pairsOf l, R p.1 p.2 := by
  intro l
  induction l with
  | nil => intro _ p hp; simp [pairsOf] at hp
  | cons x xs ih =>
    intro hpw p hp
    rcases List.pairwise_cons.mp hpw with ⟨hx, hxs⟩
    simp only [pairsOf, List.mem_append, List.mem_map] at hp
    rcases hp with ⟨y, hy, rfl⟩ | hp
    · exact hx y hy
    · exact ih hxs p hp

theorem pairsOf_ltW {l : List (List Char)} (hnd : l.Nodup) :
    ∀ p ∈ pairsOf (sortW l), ltW p.1 p.2 = true := by
  have hsorted : (sortW l).Pairwise (fun a b => leW a b = true) :=
    pairwise_pySort leW leW_total leW_trans l
  have hnd' : (sortW l).Nodup := ((pySort_perm leW l).nodup_iff).mpr hnd
  have hcomb : (sortW l).Pairwise (fun a b => ltW a b = true) := by
    have := hsorted.and hnd'
    exact this.imp (fun h => ltW_of_leW_of_ne h.1 h.2)
  exact pairsOf_pairwise hcomb

example : process_text (TextProcessor.init none none none 2 true)
    (PyObj.str (chars (r"Cats and dogs!"))) = [chars (r"cat"), chars (r"dog")] := by decide

theorem eq_ok_of_isOkE {ε α : Type} (e : Except ε α) (d : α) (h : isOkE e = true) :
    e = .ok (getOkE d e) := by
  cases e with
  | ok a => rfl
  | error b => exact absurd h (by simp [isOkE])

/-- Inversion of a successful `process_word`: the emitted token is not in
the deletion set, and the cleaned input passed the length and pre-transform
stopword/deletion checks. -/
theorem process_word_some_inv {tp : TextProcessor} {t w : List Char}
    (h : process_word tp t = some w) :
    tp.delete_words.contains w = false ∧
    tp.min_word_length ≤ (clean_word t).length ∧
    tp.stopwords.contains (clean_word t) = false ∧
    tp.delete_words.contains (clean_word t) = false := by
  simp only [process_word] at h
  by_cases h1 : (clean_word t).length < tp.min_word_length
  · rw [if_pos h1] at h; exact absurd h (by simp)
  · rw [if_neg h1] at h
    by_cases h2 : (tp.stopwords.contains (clean_word t)
        || tp.delete_words.contains (clean_word t)) = true
    · rw [if_pos h2] at h; exact absurd h (by simp)
    · rw [if_neg h2] at h
      have h2f : (tp.stopwords.contains (clean_word t)
          || tp.delete_words.contains (clean_word t)) = false := Bool.eq_false_iff.mpr h2
      have hstop := (Bool.or_eq_false_iff.mp h2f).1
      have hdel := (Bool.or_eq_false_iff.mp h2f).2
      repeat' split at h
      all_goals
        first
        | exact Option.noConfusion h
        | (injection h with hw
           subst hw
           exact ⟨by simp_all, Nat.le_of_not_lt h1, hstop, hdel⟩)

/-- Membership inversion for `process_text`. -/
theorem mem_process_text {tp : TextProcessor} {text : PyObj} {w : List Char}
    (hw : w ∈ process_text tp text) :
    ∃ t, process_word tp t = some w := by
  unfold process_text at hw
  split at hw
  · exact absurd hw (List.not_mem_nil w)
  · cases text with
    | nonstr b => exact absurd hw (List.not_mem_nil w)
    | str s =>
      rcases List.mem_filterMap.mp hw with ⟨t, _, hf⟩
      refine ⟨t, ?_⟩
      rcases hp : process_word tp t with _ | p
      · rw [hp] at hf
        have hf' : (none : Option (List Char)) = some w := hf
        exact Option.noConfusion hf'
      · rw [hp] at hf
        have hf' : (if p.isEmpty = true then none else some p) = some w := hf
        by_cases he : p.isEmpty = true
        · rw [if_pos he] at hf'
          exact Option.noConfusion hf'
        · rw [if_neg he] at hf'
          injection hf' with hf2
          exact congrArg some hf2

/-- C2 (amended): every token emitted by `process_text` is outside the
deletion set (which is checked both pre- and post-transform), and it arises
from a token whose cleaned pre-transform form passed the minimum-length,
stopword and deletion checks.  The minimum-length and stopword checks apply
only to the pre-transform form, so a mapped or singularized token may
violate them (see the counterexample). -/
theorem process_text_delete_and_prefilter (tp : TextProcessor) (text : PyObj)
    (w : List Char) (hw : w ∈ process_text tp text) :
    tp.delete_words.contains w = false ∧
    ∃ t, process_word tp t = some w ∧
      tp.min_word_length ≤ (clean_word t).length ∧
      tp.stopwords.contains (clean_word t) = false ∧
      tp.delete_words.contains (clean_word t) = false := by
  rcases mem_process_text hw with ⟨t, ht⟩
  rcases process_word_some_inv ht with ⟨h1, h2, h3, h4⟩
  exact ⟨h1, t, ht, h2, h3, h4⟩

/-- C2 (counterexample): the claim's post-transform stopword and length
guarantees fail on the code.  Singularizing the cleaned token may emit a
member of the stopword set (left conjunct), and an explicit mapping may
emit a token shorter than the minimum length (right conjunct). -/
theorem process_word_emits_stopword_or_short :
    (process_word tpStop (chars (r"thes")) = some (chars (r"the")) ∧
      tpStop.stopwords.contains (chars (r"the")) = true) ∧
    (process_word tpShort (chars (r"ok")) = some (chars (r"a")) ∧
      (chars (r"a")).length < tpShort.min_word_length) := by decide

/-- C2 (witness). -/
theorem process_text_delete_and_prefilter_witness :
    tpStop.delete_words.contains (chars (r"cat")) = false ∧
    ∃ t, process_word tpStop t = some (chars (r"cat")) ∧
      tpStop.min_word_length ≤ (clean_word t).length ∧
      tpStop.stopwords.contains (clean_word t) = false ∧
      tpStop.delete_words.contains (clean_word t) = false :=
  process_text_delete_and_prefilter tpStop (PyObj.str (chars (r"cats and dogs")))
    (chars (r"cat")) (by decide)

/-- C6: the explicit mapping is applied after the stopword/deletion checks
and before plural unification, keyed on the cleaned surface form.  With
mapping color → colour and plural unification on, the input token
`colors` misses the mapping (the key is `color`, not `colors`) and is then
singularized to `color`; the exact key `color` itself is mapped to
`colour`. -/
theorem mapping_applied_before_plural_on_surface_form :
    process_text tpMap (PyObj.str (chars (r"colors"))) = [chars (r"color")] ∧
    process_word tpMap (chars (r"color")) = some (chars (r"colour")) := by decide

/-- Helper: a suffix test for `pre ++ [c]` implies the suffix test for
`[c]`. -/
theorem isSuffixOf_last {pre w : List Char} {c : Char}
    (h : (pre ++ [c]).isSuffixOf w = true) : [c].isSuffixOf w = true := by
  rw [List.isSuffixOf_iff_suffix] at h ⊢
  exact (List.suffix_append pre [c]).trans h

/-- C7 (amended): `get_singular` is idempotent on every word whose
singularized form does not end in `s`; a singularized form ending in a
single `s` (possible through the es-rule when the base ends in `s`) can be
singularized again, as the counterexample shows. -/
theorem get_singular_idempotent_of_no_s_suffix (tp : TextProcessor) (w : List Char)
    (h : (['s'].isSuffixOf (get_singular tp w)) = false) :
    get_singular tp (get_singular tp w) = get_singular tp w := by
  cases hu : tp.unify_plurals with
  | false =>
    unfold get_singular
    simp [hu]
  | true =>
    have h1 : (['i', 'e', 's'].isSuffixOf (get_singular tp w)) = false := by
      cases h' : ['i', 'e', 's'].isSuffixOf (get_singular tp w) with
      | false => rfl
      | true =>
        have hs : ((['i', 'e'] ++ ['s']).isSuffixOf (get_singular tp w)) = true := h'
        rw [isSuffixOf_last hs] at h
        exact absurd h (by simp)
    have h2 : (['e', 's'].isSuffixOf (get_singular tp w)) = false := by
      cases h' : ['e', 's'].isSuffixOf (get_singular tp w) with
      | false => rfl
      | true =>
        have hs : ((['e'] ++ ['s']).isSuffixOf (get_singular tp w)) = true := h'
        rw [isSuffixOf_last hs] at h
        exact absurd h (by simp)
    set r := get_singular tp w with hr
    unfold get_singular
    simp [hu, h1, h2, h]

/-- C7 (counterexample): `buses` singularizes to `bus` (es-rule, base ends
in `s`), and a second application strips again to `bu`, so the
singularization is not idempotent. -/
theorem get_singular_not_idempotent_on_buses :
    get_singular tpPlain (get_singular tpPlain (chars (r"buses"))) ≠
      get_singular tpPlain (chars (r"buses")) := by decide

/-- C7 (witness). -/
theorem get_singular_idempotent_witness :
    get_singular tpPlain (get_singular tpPlain (chars (r"boxes"))) =
      get_singular tpPlain (chars (r"boxes")) :=
  get_singular_idempotent_of_no_s_suffix tpPlain (chars (r"boxes")) (by decide)

/-- C9: a non-string input (of either truthiness) or an empty/falsy string
yields the empty token list, with no failure path (`process_text` is
total). -/
theorem process_text_empty_on_non_string_or_empty (tp : TextProcessor) (text : PyObj)
    (h : pyIsStr text = false ∨ text = PyObj.str []) :
    process_text tp text = [] := by
  rcases h with h | rfl
  · cases text with
    | str s => exact absurd h (by simp [pyIsStr])
    | nonstr b => cases b <;> rfl
  · rfl

/-- C9 (witness): a truthy non-string, a falsy non-string, and the empty
string. -/
theorem process_text_empty_witness :
    process_text tpPlain (PyObj.nonstr true) = [] ∧
    process_text tpPlain (PyObj.nonstr false) = [] ∧
    process_text tpPlain (PyObj.str []) = [] :=
  ⟨process_text_empty_on_non_string_or_empty tpPlain (PyObj.nonstr true) (Or.inl rfl),
   process_text_empty_on_non_string_or_empty tpPlain (PyObj.nonstr false) (Or.inl rfl),
   process_text_empty_on_non_string_or_empty tpPlain (PyObj.str []) (Or.inr rfl)⟩

/-- Every pair accumulated by `build_network` is in strict lexicographic
order (it comes from `combinations` over a sorted duplicate-free list). -/
theorem buildAllPairs_ltW (tp : TextProcessor) (texts : List PyObj) (mf : Nat) :
    ∀ p ∈ buildAllPairs tp texts mf, ltW p.1 p.2 = true := by
  intro p hp
  rcases List.mem_flatten.mp hp with ⟨l, hl, hpl⟩
  rcases List.mem_map.mp hl with ⟨words, _, rfl⟩
  exact pairsOf_ltW (List.nodup_dedup _) p hpl

/-- Every retained edge key is in strict lexicographic order. -/
theorem buildEdges_ltW (tp : TextProcessor) (texts : List PyObj) (mf me : Nat) :
    ∀ e ∈ buildEdges tp texts mf me, ltW e.1.1 e.1.2 = true := by
  intro e he
  rcases List.mem_filter.mp he with ⟨hmem, _⟩
  rcases List.mem_map.mp hmem with ⟨p, hp, rfl⟩
  exact buildAllPairs_ltW tp texts mf p (List.mem_dedup.mp hp)

/-- The edge keys of `build_network` are pairwise distinct. -/
theorem buildEdges_keys_nodup (tp : TextProcessor) (texts : List PyObj) (mf me : Nat) :
    ((buildEdges tp texts mf me).map Prod.fst).Nodup := by
  have hsub : ((buildEdges tp texts mf me).map Prod.fst).Sublist
      (((buildAllPairs tp texts mf).dedup.map
        (fun p => (p, (buildAllPairs tp texts mf).count p))).map Prod.fst) :=
    (List.filter_sublist _).map Prod.fst
  have hid : (((buildAllPairs tp texts mf).dedup.map
      (fun p => (p, (buildAllPairs tp texts mf).count p))).map Prod.fst) =
      (buildAllPairs tp texts mf).dedup := by
    rw [List.map_map]
    exact List.map_id' _
  rw [hid] at hsub
  exact hsub.nodup (List.nodup_dedup _)

/-- C4: for every built graph, every node count passes the frequency
filter, every edge joins two node words with weight at least the edge
threshold and no self-loop, and the node-word set is exactly the set of
words whose total token count over all processed documents reaches
`min_frequency`. -/
theorem build_network_graph_invariants (nb : NetworkBuilder) (texts : List PyObj)
    (min_frequency min_edge_weight : Nat) (hmf : 1 ≤ min_frequency) :
    ∃ g, (build_network nb texts min_frequency min_edge_weight).graph = some g ∧
      (∀ p ∈ g.nodes, min_frequency ≤ p.2) ∧
      (∀ e ∈ g.edges, e.1.1 ∈ g.nodes.map Prod.fst ∧ e.1.2 ∈ g.nodes.map Prod.fst ∧
        min_edge_weight ≤ e.2 ∧ e.1.1 ≠ e.1.2) ∧
      (∀ w, w ∈ g.nodes.map Prod.fst ↔
        min_frequency ≤ ((texts.map (process_text nb.processor)).flatten).count w) := by
  refine ⟨_, rfl, ?_, ?_, ?_⟩
  · intro p hp
    exact of_decide_eq_true (List.mem_filter.mp hp).2
  · intro e he
    rcases List.mem_filter.mp he with ⟨hedge, hvalid⟩
    rw [Bool.and_eq_true] at hvalid
    rcases hvalid with ⟨hv1, hv2⟩
    rcases List.mem_filter.mp hedge with ⟨_, hweight⟩
    refine ⟨List.mem_of_elem_eq_true hv1, List.mem_of_elem_eq_true hv2,
      of_decide_eq_true hweight, ?_⟩
    exact ne_of_ltW (buildEdges_ltW nb.processor texts min_frequency min_edge_weight e hedge)
  · intro w
    constructor
    · intro hw
      rcases List.mem_map.mp hw with ⟨p, hp, rfl⟩
      rcases List.mem_filter.mp hp with ⟨hpm, hpred⟩
      rcases List.mem_map.mp hpm with ⟨x, _, rfl⟩
      exact of_decide_eq_true hpred
    · intro hcnt
      have hpos : 0 < ((texts.map (process_text nb.processor)).flatten).count w :=
        lt_of_lt_of_le (Nat.lt_of_lt_of_le Nat.zero_lt_one hmf) hcnt
      have hx : w ∈ (texts.map (process_text nb.processor)).flatten :=
        List.count_pos_iff.mp hpos
      refine List.mem_map.mpr ⟨(w, ((texts.map (process_text nb.processor)).flatten).count w),
        ?_, rfl⟩
      refine List.mem_filter.mpr ⟨List.mem_map.mpr ⟨w, List.mem_dedup.mpr hx, rfl⟩, ?_⟩
      exact decide_eq_true hcnt

/-- C4 (witness). -/
theorem build_network_graph_invariants_witness :
    ∃ g, (build_network { processor := tpPlain } [PyObj.str (chars (r"aa bb")),
        PyObj.str (chars (r"bb cc"))] 1 1).graph = some g ∧
      (∀ p ∈ g.nodes, 1 ≤ p.2) ∧
      (∀ e ∈ g.edges, e.1.1 ∈ g.nodes.map Prod.fst ∧ e.1.2 ∈ g.nodes.map Prod.fst ∧
        1 ≤ e.2 ∧ e.1.1 ≠ e.1.2) ∧
      (∀ w, w ∈ g.nodes.map Prod.fst ↔
        1 ≤ (([PyObj.str (chars (r"aa bb")), PyObj.str (chars (r"bb cc"))].map
          (process_text tpPlain)).flatten).count w) :=
  build_network_graph_invariants { processor := tpPlain }
    [PyObj.str (chars (r"aa bb")), PyObj.str (chars (r"bb cc"))] 1 1 (by decide)

theorem foldl_max_le_init (xs : List ℚ) (b : ℚ) : b ≤ xs.foldl max b := by
  induction xs generalizing b with
  | nil => exact le_refl b
  | cons y ys ih => exact le_trans (le_max_left b y) (ih (max b y))

theorem foldl_max_le_mem (xs : List ℚ) (b : ℚ) : ∀ x ∈ xs, x ≤ xs.foldl max b := by
  induction xs generalizing b with
  | nil => intro x hx; exact absurd hx (List.not_mem_nil x)
  | cons y ys ih =>
    intro x hx
    rcases List.mem_cons.mp hx with rfl | hx
    · exact le_trans (le_max_right b x) (foldl_max_le_init ys (max b x))
    · exact ih (max b y) x hx

theorem foldl_max_mem (xs : List ℚ) (b : ℚ) : xs.foldl max b = b ∨ xs.foldl max b ∈ xs := by
  induction xs generalizing b with
  | nil => left; rfl
  | cons y ys ih =>
    rcases ih (max b y) with h | h
    · rcases max_choice b y with hc | hc
      · left; rw [List.foldl_cons, h, hc]
      · right; rw [List.foldl_cons, h, hc]; exact List.mem_cons_self y ys
    · right; exact List.mem_cons_of_mem y h

theorem le_pymaxQ {l : List ℚ} {x : ℚ} (hx : x ∈ l) : x ≤ pymaxQ l := by
  cases l with
  | nil => exact absurd hx (List.not_mem_nil x)
  | cons y ys =>
    rcases List.mem_cons.mp hx with rfl | hx
    · exact foldl_max_le_init ys x
    · exact foldl_max_le_mem ys y x hx

theorem pymaxQ_mem {l : List ℚ} (h : l ≠ []) : pymaxQ l ∈ l := by
  cases l with
  | nil => exact absurd rfl h
  | cons y ys =>
    rcases foldl_max_mem ys y with h' | h'
    · rw [pymaxQ, h']; exact List.mem_cons_self y ys
    · exact List.mem_cons_of_mem y h'

/-- Bounds of the max-normalization pattern
`value / max if max > 0 else 0` over nonnegative values. -/
theorem normalizedQ_bounds (ns : List (List Char)) (v : List Char → ℚ)
    (hne : ns ≠ []) (h0 : ∀ n, 0 ≤ v n) :
    (∀ n ∈ ns, 0 ≤ (if 0 < pymaxQ (ns.map v) then v n / pymaxQ (ns.map v) else 0) ∧
      (if 0 < pymaxQ (ns.map v) then v n / pymaxQ (ns.map v) else 0) ≤ 1) ∧
    ((∃ n ∈ ns, 0 < (if 0 < pymaxQ (ns.map v) then v n / pymaxQ (ns.map v) else 0)) →
      ∃ n ∈ ns, (if 0 < pymaxQ (ns.map v) then v n / pymaxQ (ns.map v) else 0) = 1) := by
  constructor
  · intro n hn
    by_cases hpos : 0 < pymaxQ (ns.map v)
    · rw [if_pos hpos]
      exact ⟨div_nonneg (h0 n) (le_of_lt hpos),
        (div_le_one hpos).mpr (le_pymaxQ (List.mem_map_of_mem v hn))⟩
    · rw [if_neg hpos]
      exact ⟨le_refl 0, zero_le_one⟩
  · intro hex
    by_cases hpos : 0 < pymaxQ (ns.map v)
    · have hmem : pymaxQ (ns.map v) ∈ ns.map v :=
        pymaxQ_mem (fun h => hne (List.map_eq_nil_iff.mp h))
      rcases List.mem_map.mp hmem with ⟨n, hn, hvn⟩
      refine ⟨n, hn, ?_⟩
      rw [if_pos hpos, hvn]
      exact div_self (ne_of_gt hpos)
    · rcases hex with ⟨n, hn, hlt⟩
      rw [if_neg hpos] at hlt
      exact absurd hlt (lt_irrefl 0)

/-- C1 (amended): on a built graph with at least one node, the centrality
call succeeds; betweenness and eigenvector are divided by their own maximum
over all nodes when that maximum is positive (and are 0 when it is 0), so
those two metrics lie in [0,1] and some node attains exactly 1 whenever any
normalized value is positive.  Degree and strength are returned raw
(unnormalized), contrary to the claim. -/
theorem calculate_centrality_normalization (nb : NetworkBuilder) (g : Graph)
    (betweennessFn closenessFn : Graph → List Char → ℚ)
    (eigenvectorFn : Graph → Except Unit (List Char → ℚ))
    (hg : nb.graph = some g) (hne : g.nodes ≠ [])
    (hbf : ∀ n, 0 ≤ betweennessFn g n)
    (hef : ∀ f, eigenvectorFn g = Except.ok f → ∀ n, 0 ≤ f n) :
    ∃ res, calculate_centrality_metrics nb betweennessFn closenessFn eigenvectorFn =
        Except.ok res ∧
      (∀ p ∈ res, p.2.degree = (g.degreeOf p.1 : ℚ) ∧
        p.2.strength = (g.strengthOf p.1 : ℚ) ∧
        0 ≤ p.2.betweenness ∧ p.2.betweenness ≤ 1 ∧
        0 ≤ p.2.eigenvector ∧ p.2.eigenvector ≤ 1) ∧
      ((∃ p ∈ res, 0 < p.2.betweenness) → ∃ p ∈ res, p.2.betweenness = 1) ∧
      ((∃ p ∈ res, 0 < p.2.eigenvector) → ∃ p ∈ res, p.2.eigenvector = 1) := by
  have hie : g.nodes.isEmpty = false := by
    cases hn : g.nodes with
    | nil => exact absurd hn hne
    | cons a l => rfl
  have hie2 : (g.nodes.map Prod.fst).isEmpty = false := by
    cases hn : g.nodes with
    | nil => exact absurd hn hne
    | cons a l => rfl
  have hne2 : g.nodes.map Prod.fst ≠ [] := by
    intro h
    exact hne (List.map_eq_nil_iff.mp h)
  have hev0 : ∀ n, 0 ≤ eigenvectorOrZero (eigenvectorFn g) n := by
    intro n
    rcases hc : eigenvectorFn g with e | f
    · exact le_refl 0
    · exact hef f hc n
  obtain ⟨hb_all, hb_top⟩ :=
    normalizedQ_bounds (g.nodes.map Prod.fst) (betweennessFn g) hne2 hbf
  obtain ⟨he_all, he_top⟩ :=
    normalizedQ_bounds (g.nodes.map Prod.fst) (eigenvectorOrZero (eigenvectorFn g)) hne2 hev0
  have heq : calculate_centrality_metrics nb betweennessFn closenessFn eigenvectorFn =
      Except.ok ((g.nodes.map Prod.fst).map (fun n =>
        (n, { degree := (g.degreeOf n : ℚ)
              strength := (g.strengthOf n : ℚ)
              betweenness := if 0 < pymaxQ ((g.nodes.map Prod.fst).map (betweennessFn g)) then
                  betweennessFn g n / pymaxQ ((g.nodes.map Prod.fst).map (betweennessFn g))
                else 0
              closeness := closenessFn g n
              eigenvector := if 0 < pymaxQ ((g.nodes.map Prod.fst).map
                    (eigenvectorOrZero (eigenvectorFn g))) then
                  eigenvectorOrZero (eigenvectorFn g) n /
                    pymaxQ ((g.nodes.map Prod.fst).map (eigenvectorOrZero (eigenvectorFn g)))
                else 0 }))) := by
    simp only [calculate_centrality_metrics, hg, hie, hie2, Bool.false_eq_true, if_false]
  refine ⟨_, heq, ?_, ?_, ?_⟩
  · intro p hp
    rcases List.mem_map.mp hp with ⟨n, hn, rfl⟩
    exact ⟨rfl, rfl, (hb_all n hn).1, (hb_all n hn).2, (he_all n hn).1, (he_all n hn).2⟩
  · intro hex
    rcases hex with ⟨p, hp, hpos⟩
    rcases List.mem_map.mp hp with ⟨n, hn, rfl⟩
    rcases hb_top ⟨n, hn, hpos⟩ with ⟨m, hm, h1⟩
    exact ⟨_, List.mem_map_of_mem _ hm, h1⟩
  · intro hex
    rcases hex with ⟨p, hp, hpos⟩
    rcases List.mem_map.mp hp with ⟨n, hn, rfl⟩
    rcases he_top ⟨n, hn, hpos⟩ with ⟨m, hm, h1⟩
    exact ⟨_, List.mem_map_of_mem _ hm, h1⟩

/-- C1 (witness). -/
theorem calculate_centrality_normalization_witness :
    ∃ res, calculate_centrality_metrics nbC (fun _ _ => 1) (fun _ _ => 0)
        (fun _ => Except.error ()) = Except.ok res ∧
      (∀ p ∈ res, p.2.degree = (gC.degreeOf p.1 : ℚ) ∧
        p.2.strength = (gC.strengthOf p.1 : ℚ) ∧
        0 ≤ p.2.betweenness ∧ p.2.betweenness ≤ 1 ∧
        0 ≤ p.2.eigenvector ∧ p.2.eigenvector ≤ 1) ∧
      ((∃ p ∈ res, 0 < p.2.betweenness) → ∃ p ∈ res, p.2.betweenness = 1) ∧
      ((∃ p ∈ res, 0 < p.2.eigenvector) → ∃ p ∈ res, p.2.eigenvector = 1) :=
  calculate_centrality_normalization nbC gC (fun _ _ => 1) (fun _ _ => 0)
    (fun _ => Except.error ()) (by decide) (by decide)
    (fun _ => zero_le_one) (fun _ h => Except.noConfusion h)

/-- C1 (counterexample): on the built path graph aa — bb — cc the centrality
call succeeds but reports degree 2 for node bb — the degree field is the
raw degree, not divided by the maximum degree, so it is not in [0,1]. -/
theorem centrality_degree_not_in_unit_interval :
    isOkE (calculate_centrality_metrics nbC (fun _ _ => 0) (fun _ _ => 0)
      (fun _ => Except.error ())) = true ∧
    ∃ p ∈ getOkE [] (calculate_centrality_metrics nbC (fun _ _ => 0) (fun _ _ => 0)
      (fun _ => Except.error ())), p.1 = chars (r"bb") ∧ ¬(p.2.degree ≤ 1) := by decide

/-- C3: after `build_network` on an empty corpus the graph has been built
(the attribute is a graph, not `None`), yet `calculate_centrality_metrics`
raises the `Network not built` error, because Python's `not self.graph` is
also true for a built zero-node graph.  This contradicts the claim's
raises-iff-not-built contract and the never-fail policy for degenerate
graphs. -/
theorem centrality_fails_on_built_empty_graph :
    (build_network nb0 [] 1 1).graph ≠ none ∧
    isOkE (calculate_centrality_metrics (build_network nb0 [] 1 1)
      (fun _ _ => 0) (fun _ _ => 0) (fun _ => Except.error ())) = false := by decide

/-- C8 (amended): `detect_clusters` stores the partition it returns in the
louvain/spectral/unknown-method branches (reached only when the built graph
has nodes and at least one edge); the empty-graph and zero-edge branches
return without touching the stored partition.  `get_network_stats` computes
modularity from the stored partition when one is present and nonempty
(rounded to 6 decimals, `0.0` if the computation fails) and omits the
modularity entry entirely when none is stored. -/
theorem detect_clusters_retention_and_modularity (nb : NetworkBuilder) (g : Graph)
    (louvainFn spectralFn : Graph → Except Unit (List (List Char × Nat)))
    (method : List Char)
    (modularityFn : Graph → List (List Char × Nat) → Except Unit ℚ) :
    (nb.graph = some g → g.nodes ≠ [] → g.edges ≠ [] →
      (detect_clusters nb louvainFn spectralFn method).1.last_partition =
        some (detect_clusters nb louvainFn spectralFn method).2) ∧
    (nb.graph = some g → g.edges = [] →
      (detect_clusters nb louvainFn spectralFn method).1 = nb) ∧
    (nb.last_partition = none →
      get_network_stats_modularity nb modularityFn = none) ∧
    (∀ p m, nb.graph = some g → g.nodes ≠ [] → nb.last_partition = some p → p ≠ [] →
      modularityFn g p = Except.ok m →
      get_network_stats_modularity nb modularityFn = some (pyRound 6 m)) ∧
    (∀ p e, nb.graph = some g → g.nodes ≠ [] → nb.last_partition = some p → p ≠ [] →
      modularityFn g p = Except.error e →
      get_network_stats_modularity nb modularityFn = some 0) := by
  refine ⟨?_, ?_, ?_, ?_, ?_⟩
  · intro hg hn he
    have hieN : g.nodes.isEmpty = false := by
      cases h : g.nodes with
      | nil => exact absurd h hn
      | cons a l => rfl
    have hieE : g.edges.isEmpty = false := by
      cases h : g.edges with
      | nil => exact absurd h he
      | cons a l => rfl
    simp only [detect_clusters, hg, hieN, hieE, Bool.false_eq_true, if_false]
    by_cases hm1 : (method == chars (r"louvain")) = true
    · rw [if_pos hm1]
      rcases hl : louvainFn g with e | part <;> rfl
    · rw [if_neg hm1]
      by_cases hm2 : (method == chars (r"spectral")) = true
      · rw [if_pos hm2]
        rcases hs : spectralFn g with e | part <;> rfl
      · rw [if_neg hm2]
  · intro hg he
    simp only [detect_clusters, hg]
    by_cases hn : g.nodes.isEmpty = true
    · rw [if_pos hn]
    · rw [if_neg hn]
      rw [if_pos (by rw [he]; rfl : g.edges.isEmpty = true)]
  · intro hlp
    cases hg' : nb.graph with
    | none => simp only [get_network_stats_modularity, hg']
    | some g' =>
      simp only [get_network_stats_modularity, hg', hlp, ite_self]
  · intro p m hg hn hlp hpne hm
    have hieN : g.nodes.isEmpty = false := by
      cases h : g.nodes with
      | nil => exact absurd h hn
      | cons a l => rfl
    have hieP : p.isEmpty = false := by
      cases h : p with
      | nil => exact absurd h hpne
      | cons a l => rfl
    simp only [get_network_stats_modularity, hg, hieN, hieP, hlp, hm,
      Bool.false_eq_true, if_false]
  · intro p e hg hn hlp hpne hm
    have hieN : g.nodes.isEmpty = false := by
      cases h : g.nodes with
      | nil => exact absurd h hn
      | cons a l => rfl
    have hieP : p.isEmpty = false := by
      cases h : p with
      | nil => exact absurd h hpne
      | cons a l => rfl
    simp only [get_network_stats_modularity, hg, hieN, hieP, hlp, hm,
      Bool.false_eq_true, if_false]

/-- C8 (counterexample): on a built one-node zero-edge graph,
`detect_clusters` returns a nonempty singleton partition but does not
retain it (`last_partition` stays unset), and the subsequent stats call
reports no modularity value at all (`none`), not `0.0`. -/
theorem zero_edge_partition_not_retained :
    (detect_clusters nbS (fun _ => Except.ok []) (fun _ => Except.ok [])
      (chars (r"louvain"))).2 ≠ [] ∧
    (detect_clusters nbS (fun _ => Except.ok []) (fun _ => Except.ok [])
      (chars (r"louvain"))).1.last_partition = none ∧
    get_network_stats_modularity
      (detect_clusters nbS (fun _ => Except.ok []) (fun _ => Except.ok [])
        (chars (r"louvain"))).1 (fun _ _ => Except.ok 0) = none := by
  refine ⟨by decide, by decide, by decide⟩

/-- C8 (witness). -/
theorem detect_clusters_retention_witness :
    (detect_clusters nbC lfW lfW (chars (r"louvain"))).1.last_partition =
      some (detect_clusters nbC lfW lfW (chars (r"louvain"))).2 ∧
    (detect_clusters nbS lfW lfW (chars (r"louvain"))).1 = nbS ∧
    get_network_stats_modularity nbS (fun _ _ => Except.ok 0) = none ∧
    get_network_stats_modularity nbP (fun _ _ => Except.ok 0) = some (pyRound 6 0) ∧
    get_network_stats_modularity nbP (fun _ _ => Except.error ()) = some 0 :=
  ⟨(detect_clusters_retention_and_modularity nbC gC lfW lfW (chars (r"louvain"))
      (fun _ _ => Except.ok 0)).1 (by decide) (by decide) (by decide),
   (detect_clusters_retention_and_modularity nbS
      (nbS.graph.getD { nodes := [], edges := [] }) lfW lfW (chars (r"louvain"))
      (fun _ _ => Except.ok 0)).2.1 (by decide) (by decide),
   (detect_clusters_retention_and_modularity nbS
      (nbS.graph.getD { nodes := [], edges := [] }) lfW lfW (chars (r"louvain"))
      (fun _ _ => Except.ok 0)).2.2.1 (by decide),
   (detect_clusters_retention_and_modularity nbP gC lfW lfW (chars (r"louvain"))
      (fun _ _ => Except.ok 0)).2.2.2.1 [(chars (r"aa"), 0)] 0 (by decide) (by decide)
      (by decide) (by decide) rfl,
   (detect_clusters_retention_and_modularity nbP gC lfW lfW (chars (r"louvain"))
      (fun _ _ => Except.error ())).2.2.2.2 [(chars (r"aa"), 0)] () (by decide) (by decide)
      (by decide) (by decide) rfl⟩

/-- `detect_clusters` only ever assigns `last_partition`; the builder's
word counts and edge dict are untouched in every branch. -/
theorem detect_clusters_preserves (nb : NetworkBuilder)
    (lf sf : Graph → Except Unit (List (List Char × Nat))) (method : List Char) :
    (detect_clusters nb lf sf method).1.word_counts = nb.word_counts ∧
    (detect_clusters nb lf sf method).1.edges = nb.edges := by
  unfold detect_clusters
  repeat' split
  all_goals exact ⟨rfl, rfl⟩

/-- `normScore` depends only on the builder's word counts. -/
theorem normScore_congr {b b' : NetworkBuilder} (h : b.word_counts = b'.word_counts)
    (w : List Char) : b.normScore w = b'.normScore w := by
  unfold NetworkBuilder.normScore NetworkBuilder.maxCount
  rw [h]

theorem mkRow_word {builders : List NetworkBuilder}
    {all_clusters : List (List (List Char × Nat))} {thresholds : List ℚ}
    {n : Nat} {a : List Char} {r : AnalysisRow}
    (h : mkRow builders all_clusters thresholds n a = some r) : r.word = a := by
  simp only [mkRow] at h
  split at h
  · exact Option.noConfusion h
  · injection h with h
    rw [← h]

theorem mkRow_isSome_iff (builders : List NetworkBuilder)
    (all_clusters : List (List (List Char × Nat))) (thresholds : List ℚ)
    (n : Nat) (a : List Char) :
    (∃ r, mkRow builders all_clusters thresholds n a = some r) ↔
    ∃ i < n, thresholds.getD i 0 ≤
      (builders.map (fun b => b.normScore a)).getD i 0 := by
  simp only [mkRow]
  split
  · rename_i hall
    constructor
    · rintro ⟨r, hr⟩
      exact Option.noConfusion hr
    · rintro ⟨i, hi, hle⟩
      rw [List.all_eq_true] at hall
      have hx := hall i (List.mem_range.mpr hi)
      rw [decide_eq_true_eq] at hx
      exact absurd hle (not_le.mpr hx)
  · rename_i hall
    constructor
    · intro _
      have hex : ¬ ∀ i ∈ List.range n,
          ((builders.map (fun b => b.normScore a)).getD i 0 < thresholds.getD i 0) := by
        intro hforall
        exact hall (List.all_eq_true.mpr (fun i hi => decide_eq_true (hforall i hi)))
      push_neg at hex
      rcases hex with ⟨i, hi, hnlt⟩
      exact ⟨i, List.mem_range.mp hi, hnlt⟩
    · intro _
      exact ⟨_, rfl⟩

/-- Row membership after the threshold filter and the stability sort. -/
theorem rows_mem_iff (builders : List NetworkBuilder)
    (all_clusters : List (List (List Char × Nat))) (thresholds : List ℚ)
    (n : Nat) (w : List Char) (cmp : AnalysisRow → AnalysisRow → Bool)
    (all_words : List (List Char)) :
    (∃ r ∈ pySort cmp (all_words.filterMap (mkRow builders all_clusters thresholds n)),
      r.word = w) ↔
    (w ∈ all_words ∧ ∃ i < n, thresholds.getD i 0 ≤
      (builders.map (fun b => b.normScore w)).getD i 0) := by
  constructor
  · rintro ⟨r, hr, rfl⟩
    have hr' := (pySort_perm cmp _).mem_iff.mp hr
    rcases List.mem_filterMap.mp hr' with ⟨a, ha, hmk⟩
    have hword := mkRow_word hmk
    rw [hword]
    exact ⟨ha, (mkRow_isSome_iff builders all_clusters thresholds n a).mp ⟨r, hmk⟩⟩
  · rintro ⟨hw, hth⟩
    rcases (mkRow_isSome_iff builders all_clusters thresholds n w).mpr hth with ⟨r, hmk⟩
    refine ⟨r, ?_, mkRow_word hmk⟩
    exact (pySort_perm cmp _).mem_iff.mpr (List.mem_filterMap.mpr ⟨w, hw, hmk⟩)

theorem clusterized_unionWords (builders : List NetworkBuilder)
    (lf sf : Graph → Except Unit (List (List Char × Nat))) (cm : List Char) :
    unionWords ((builders.map (fun b => detect_clusters b lf sf cm)).map Prod.fst) =
      unionWords builders := by
  unfold unionWords
  rw [List.map_map, List.map_map]
  congr 1
  congr 1
  exact List.map_congr_left (fun b _ => by
    show (detect_clusters b lf sf cm).1.word_counts.map Prod.fst =
      b.word_counts.map Prod.fst
    rw [(detect_clusters_preserves b lf sf cm).1])

theorem clusterized_normScores (builders : List NetworkBuilder)
    (lf sf : Graph → Except Unit (List (List Char × Nat))) (cm : List Char)
    (w : List Char) :
    ((builders.map (fun b => detect_clusters b lf sf cm)).map Prod.fst).map
      (fun b => b.normScore w) = builders.map (fun b => b.normScore w) := by
  rw [List.map_map, List.map_map]
  exact List.map_congr_left (fun b _ => by
    show (detect_clusters b lf sf cm).1.normScore w = b.normScore w
    exact normScore_congr (detect_clusters_preserves b lf sf cm).1 w)

/-- C5: a word of the union of all groups' node sets appears in the final
analysis rows iff at least one group's normalized score for it reaches that
group's effective threshold (per-group thresholds when supplied truthy with
matching length, otherwise the global threshold for every group); words
meeting no group's threshold are skipped entirely. -/
theorem analyze_threshold_inclusion (mga : MultiGroupAnalyzer)
    (bf cf : Graph → List Char → ℚ) (ef : Graph → Except Unit (List Char → ℚ))
    (lf sf : Graph → Except Unit (List (List Char × Nat)))
    (texts_list : List (List PyObj)) (min_frequency : Nat)
    (min_score_threshold : ℚ) (per_group_thresholds : Option (List ℚ))
    (cluster_method : List Char) (res : AnalyzeResult) (w : List Char)
    (h : analyze mga bf cf ef lf sf texts_list min_frequency min_score_threshold
      per_group_thresholds cluster_method = Except.ok res) :
    (∃ r ∈ res.analysis_data, r.word = w) ↔
      (w ∈ unionWords (builtBuilders mga texts_list min_frequency) ∧
       ∃ i < mga.num_groups,
         (effectiveThresholds mga.num_groups min_score_threshold
           per_group_thresholds).getD i 0 ≤
         ((builtBuilders mga texts_list min_frequency).map
           (fun b => b.normScore w)).getD i 0) := by
  simp only [analyze] at h
  split at h
  · exact Except.noConfusion h
  · split at h
    · exact Except.noConfusion h
    · injection h with h
      subst h
      rw [← clusterized_unionWords (builtBuilders mga texts_list min_frequency)
        lf sf cluster_method]
      rw [← clusterized_normScores (builtBuilders mga texts_list min_frequency)
        lf sf cluster_method w]
      exact rows_mem_iff _ _ _ _ w _ _

theorem anW_ok : anW = Except.ok resW := eq_ok_of_isOkE _ _ (by decide)

/-- C5 (witness). -/
theorem analyze_threshold_inclusion_witness :
    (∃ r ∈ resW.analysis_data, r.word = chars (r"aa")) ↔
      (chars (r"aa") ∈ unionWords (builtBuilders mgaW textsW 1) ∧
       ∃ i < mgaW.num_groups,
         (effectiveThresholds mgaW.num_groups 0 none).getD i 0 ≤
         ((builtBuilders mgaW textsW 1).map
           (fun b => b.normScore (chars (r"aa")))).getD i 0) :=
  analyze_threshold_inclusion mgaW zeroFn zeroFn errEV errPart errPart textsW 1 0 none
    (chars (r"louvain")) resW (chars (r"aa")) anW_ok

theorem mem_clusterized {builders : List NetworkBuilder}
    {lf sf : Graph → Except Unit (List (List Char × Nat))} {cm : List Char}
    {b : NetworkBuilder}
    (hb : b ∈ (builders.map (fun b => detect_clusters b lf sf cm)).map Prod.fst) :
    ∃ b1 ∈ builders, b = (detect_clusters b1 lf sf cm).1 := by
  rw [List.map_map] at hb
  rcases List.mem_map.mp hb with ⟨b1, hb1, rfl⟩
  exact ⟨b1, hb1, rfl⟩

/-- Every builder produced by step 1 of `analyze` is a `build_network`
output with edge threshold 1. -/
theorem builtBuilders_mem {mga : MultiGroupAnalyzer} {texts_list : List (List PyObj)}
    {mf : Nat} {b : NetworkBuilder} (hb : b ∈ builtBuilders mga texts_list mf) :
    ∃ nb texts, b = build_network nb texts mf 1 := by
  unfold builtBuilders at hb
  rcases List.mem_map.mp hb with ⟨p, _, rfl⟩
  exact ⟨p.1, p.2, rfl⟩

theorem clusterized_lookup_sums (builders : List NetworkBuilder)
    (lf sf : Graph → Except Unit (List (List Char × Nat))) (cm : List Char)
    (p : List Char × List Char) :
    ((builders.map (fun b => detect_clusters b lf sf cm)).map Prod.fst).map
      (fun b => (b.edges.lookup p).getD 0) =
      builders.map (fun b => (b.edges.lookup p).getD 0) := by
  rw [List.map_map, List.map_map]
  exact List.map_congr_left (fun b _ => by
    show (((detect_clusters b lf sf cm).1.edges.lookup p).getD 0) =
      ((b.edges.lookup p).getD 0)
    rw [(detect_clusters_preserves b lf sf cm).2])

/-- Key distinctness for a filtered count list built over deduplicated
keys. -/
theorem nodup_keys_filter_map_dedup {a b : Type} [DecidableEq a] (l : List a)
    (f : a → b) (q : a × b → Bool) :
    (((l.dedup.map (fun p => (p, f p))).filter q).map Prod.fst).Nodup := by
  have hsub : ((((l.dedup.map (fun p => (p, f p))).filter q).map Prod.fst)).Sublist
      ((l.dedup.map (fun p => (p, f p))).map Prod.fst) :=
    (List.filter_sublist _).map Prod.fst
  have hid : ((l.dedup.map (fun p => (p, f p))).map Prod.fst) = l.dedup := by
    rw [List.map_map]
    exact List.map_id' _
  rw [hid] at hsub
  exact hsub.nodup (List.nodup_dedup l)

/-- C10: each unordered pair appears at most once, stored with the smaller
endpoint first, in the per-group edge dict of `build_network` and in the
combined edge list of `analyze`, whose weight per pair is exactly the sum
of the per-group weights for that pair. -/
theorem edge_lists_sorted_and_unique
    (nb : NetworkBuilder) (texts : List PyObj) (mf me : Nat)
    (mga : MultiGroupAnalyzer) (bf cf : Graph → List Char → ℚ)
    (ef : Graph → Except Unit (List Char → ℚ))
    (lf sf : Graph → Except Unit (List (List Char × Nat)))
    (texts_list : List (List PyObj)) (mfa : Nat) (gth : ℚ)
    (pgt : Option (List ℚ)) (cm : List Char) (res : AnalyzeResult)
    (h : analyze mga bf cf ef lf sf texts_list mfa gth pgt cm = Except.ok res) :
    (∀ e ∈ (build_network nb texts mf me).edges, ltW e.1.1 e.1.2 = true) ∧
    ((build_network nb texts mf me).edges.map Prod.fst).Nodup ∧
    (∀ e ∈ res.edges, ltW e.1.1 e.1.2 = true) ∧
    (res.edges.map Prod.fst).Nodup ∧
    (∀ e ∈ res.edges, e.2 = ((builtBuilders mga texts_list mfa).map
      (fun b => (b.edges.lookup e.1).getD 0)).sum) := by
  simp only [analyze] at h
  split at h
  · exact Except.noConfusion h
  · split at h
    · exact Except.noConfusion h
    · injection h with h
      subst h
      refine ⟨buildEdges_ltW nb.processor texts mf me,
        buildEdges_keys_nodup nb.processor texts mf me, ?_, ?_, ?_⟩
      · intro e he
        rcases List.mem_filter.mp he with ⟨hcomb, _⟩
        rcases List.mem_map.mp hcomb with ⟨p, hp, rfl⟩
        have hp' := List.mem_dedup.mp hp
        rcases List.mem_flatten.mp hp' with ⟨l, hl, hpl⟩
        rcases List.mem_map.mp hl with ⟨b, hb, rfl⟩
        rcases mem_clusterized hb with ⟨b1, hb1, rfl⟩
        rw [(detect_clusters_preserves b1 lf sf cm).2] at hpl
        rcases builtBuilders_mem hb1 with ⟨nb', texts', rfl⟩
        rcases List.mem_map.mp hpl with ⟨epair, hepair, rfl⟩
        exact buildEdges_ltW nb'.processor texts' mfa 1 epair hepair
      · exact nodup_keys_filter_map_dedup _ _ _
      · intro e he
        rcases List.mem_filter.mp he with ⟨hcomb, _⟩
        rcases List.mem_map.mp hcomb with ⟨p, _, rfl⟩
        show ((((builtBuilders mga texts_list mfa).map
            (fun b => detect_clusters b lf sf cm)).map Prod.fst).map
            (fun b => (b.edges.lookup p).getD 0)).sum =
          ((builtBuilders mga texts_list mfa).map
            (fun b => (b.edges.lookup p).getD 0)).sum
        rw [clusterized_lookup_sums (builtBuilders mga texts_list mfa) lf sf cm p]

/-- C10 (witness). -/
theorem edge_lists_sorted_and_unique_witness :
    (∀ e ∈ (build_network nb0 [PyObj.str (chars (r"aa bb")),
        PyObj.str (chars (r"bb cc"))] 1 1).edges, ltW e.1.1 e.1.2 = true) ∧
    ((build_network nb0 [PyObj.str (chars (r"aa bb")),
        PyObj.str (chars (r"bb cc"))] 1 1).edges.map Prod.fst).Nodup ∧
    (∀ e ∈ resW.edges, ltW e.1.1 e.1.2 = true) ∧
    (resW.edges.map Prod.fst).Nodup ∧
    (∀ e ∈ resW.edges, e.2 = ((builtBuilders mgaW textsW 1).map
      (fun b => (b.edges.lookup e.1).getD 0)).sum) :=
  edge_lists_sorted_and_unique nb0 [PyObj.str (chars (r"aa bb")),
    PyObj.str (chars (r"bb cc"))] 1 1 mgaW zeroFn zeroFn errEV errPart errPart
    textsW 1 0 none (chars (r"louvain")) resW anW_ok
